import Mathlib

/-!
Verification of the exam/training session logic of the leben-trainer
repository (source: src/src/pages/Exam.tsx).  The TypeScript code is
shallowly embedded: JS strings are modelled as Lean `String` (ASCII case
folding and whitespace, which covers all data the theorems touch), JS
numbers as `Nat`/`Int`, nullable values as `Option`, and the pieces of
React component state that the claims mention as explicit record fields.
-/

namespace LebenTrainer

/-! ## JS primitives -/

/-- JS whitespace characters recognised by `parseInt` / `trim`
(the common ASCII subset: space, tab, LF, CR, VT, FF). -/
def isJsSpace (c : Char) : Bool :=
  c = ' ' ∨ c = '\t' ∨ c = '\n' ∨ c = '\r' ∨ c.toNat = 11 ∨ c.toNat = 12

/-- JS `String.prototype.trim()` on a character list. -/
def jsTrim (cs : List Char) : List Char :=
  ((cs.dropWhile isJsSpace).reverse.dropWhile isJsSpace).reverse

/-- JS `toLowerCase()` on one character (ASCII range, which covers the
option keys, digits and `option_` tokens the normalizer inspects). -/
def jsToLowerChar (c : Char) : Char :=
  if 'A' ≤ c ∧ c ≤ 'Z' then Char.ofNat (c.toNat + 32) else c

/-- JS `toLowerCase()` on a character list. -/
def jsToLower (cs : List Char) : List Char :=
  cs.map jsToLowerChar

/-- Value of a decimal digit character, `none` if not a digit. -/
def decDigitVal (c : Char) : Option Nat :=
  if '0' ≤ c ∧ c ≤ '9' then some (c.toNat - 48) else none

/-- Value of a hexadecimal digit character, `none` if not a hex digit. -/
def hexDigitVal (c : Char) : Option Nat :=
  if '0' ≤ c ∧ c ≤ '9' then some (c.toNat - 48)
  else if 'a' ≤ c ∧ c ≤ 'f' then some (c.toNat - 87)
  else if 'A' ≤ c ∧ c ≤ 'F' then some (c.toNat - 55)
  else none

/-- Accumulate the value of the leading digits of `cs` (base `base`,
digit reader `dv`), stopping at the first non-digit, as JS `parseInt`
does. -/
def readDigits (dv : Char → Option Nat) (base : Nat) : List Char → Nat → Nat
  | [], acc => acc
  | c :: cs, acc =>
    match dv c with
    | some d => readDigits dv base cs (acc * base + d)
    | none => acc

/-- Read the sign of a numeric literal: a leading `-` or `+` is
consumed, anything else leaves the characters untouched. -/
def stripSignChars (cs : List Char) : Int × List Char :=
  match cs with
  | '-' :: rest => (-1, rest)
  | '+' :: rest => (1, rest)
  | _ => (1, cs)

/-- Parse the leading digits of `cs` (digit reader `dv`, base `base`):
`none` (JS `NaN`) when the first character is not a digit, otherwise the
signed value of the maximal digit run. -/
def readLeading (dv : Char → Option Nat) (base : Nat) (sign : Int) (cs : List Char) : Option Int :=
  match cs with
  | c :: _ => if (dv c).isSome then some (sign * (readDigits dv base cs 0 : Nat)) else none
  | [] => none

/-- Does the (sign-stripped) literal start with the hexadecimal marker
`0x` / `0X`? -/
def hexStart (cs : List Char) : Bool :=
  decide (cs.take 2 = ['0', 'x'] ∨ cs.take 2 = ['0', 'X'])

/-- JS `parseInt(s)` with no radix argument: skip leading whitespace,
read an optional sign, detect a `0x`/`0X` prefix (hexadecimal),
otherwise read the leading decimal digits; `none` models `NaN`.
(JS numbers lose precision above 2^53; the navigation code only compares
the result against small question counts, so exact integers are
faithful there.) -/
def jsParseInt (s : String) : Option Int :=
  let p := stripSignChars (s.toList.dropWhile isJsSpace)
  if hexStart p.2 then readLeading hexDigitVal 16 p.1 (p.2.drop 2)
  else readLeading decDigitVal 10 p.1 p.2

/-- The "leading integer prefix" of a string in the sense of claim C10:
optional whitespace, optional sign, then leading *decimal* digits only
(no hexadecimal detection). -/
def leadingIntVal (s : String) : Option Int :=
  let p := stripSignChars (s.toList.dropWhile isJsSpace)
  readLeading decDigitVal 10 p.1 p.2

/-! ## Data model -/

/-- `type Question` from src/src/pages/Exam.tsx. -/
structure Question where
  id : String
  question_text : String
  option_a : String
  option_b : String
  option_c : String
  option_d : String
  correct_option : String
  category : String
  has_image : Bool
  image_path : Option String
  state_id : Option String
deriving DecidableEq, Repr, Inhabited

/-! ## Answer normalizer (`normalizeCorrectOption`, Exam.tsx lines 657-687) -/

/-- The four canonical option letters (`['a','b','c','d']` in the source). -/
def isLetterKey (c : Char) : Bool :=
  c = 'a' ∨ c = 'b' ∨ c = 'c' ∨ c = 'd'

/-- Reverse lookup from each option's trimmed lower-cased text to its
letter.  The source inserts the options into a JS object in the order
a, b, c, d (skipping empty texts), so on duplicate texts the later
insertion wins; the lookup therefore checks d first. -/
def textKeyLookup (raw : List Char) (q : Question) : Option Char :=
  if q.option_d ≠ "" ∧ raw = jsToLower (jsTrim q.option_d.toList) then some 'd'
  else if q.option_c ≠ "" ∧ raw = jsToLower (jsTrim q.option_c.toList) then some 'c'
  else if q.option_b ≠ "" ∧ raw = jsToLower (jsTrim q.option_b.toList) then some 'b'
  else if q.option_a ≠ "" ∧ raw = jsToLower (jsTrim q.option_a.toList) then some 'a'
  else none

/-- `raw.startsWith('option_')` from the source. -/
def optionShape (l : List Char) : Bool :=
  decide (l.take 7 = ['o', 'p', 't', 'i', 'o', 'n', '_'])

/-- The rule chain of `normalizeCorrectOption` applied to the trimmed,
lower-cased raw value (as a character list).  Each `let` is one early
`return` of the source, tried in order via `<|>`:
singleton letter, digit 1-4 (`['a','b','c','d'][parseInt(raw,10)-1]`),
`option_<letter>` shape, first-character fallback, then text lookup. -/
def normalizeRawKey (raw : List Char) (q : Option Question) : Option Char :=
  if raw = [] then none
  else
    let letterHit : Option Char :=
      if raw = ['a'] ∨ raw = ['b'] ∨ raw = ['c'] ∨ raw = ['d'] then raw.head? else none
    let digitHit : Option Char :=
      if raw = ['1'] ∨ raw = ['2'] ∨ raw = ['3'] ∨ raw = ['4'] then
        match raw.head? with
        | some d => (['a', 'b', 'c', 'd'] : List Char).get? (d.toNat - '1'.toNat)
        | none => none
      else none
    let optionHit : Option Char :=
      if optionShape raw then
        match raw.getLast? with
        | some last => if isLetterKey last then some last else none
        | none => none
      else none
    let firstHit : Option Char :=
      match raw.head? with
      | some first => if isLetterKey first then some first else none
      | none => none
    let textHit : Option Char :=
      match q with
      | some q => textKeyLookup raw q
      | none => none
    letterHit <|> digitHit <|> optionHit <|> firstHit <|> textHit

/-- `normalizeCorrectOption(value, q)` from Exam.tsx: `undefined`/`null`
gives `null`; otherwise the raw value is trimmed and lower-cased and the
rule chain decides. -/
def normalizeCorrectOption (value : Option String) (q : Option Question) : Option Char :=
  match value with
  | none => none
  | some v => normalizeRawKey (jsToLower (jsTrim v.toList)) q

/-- A question whose correct answer is stored as the exact text of
option C, and that text happens to start with the letter d. -/
def cexTextQuestion : Question :=
  { id := "q1"
    question_text := "Welche Stadt ist die Landeshauptstadt von Sachsen?"
    option_a := "Rot"
    option_b := "Blau"
    option_c := "Dresden"
    option_d := "Gruen"
    correct_option := "Dresden"
    category := "general"
    has_image := false
    image_path := none
    state_id := none }

/-! ## Exam session state machine (the `Exam` component, Exam.tsx lines 43-605) -/

inductive ExamPhase
  | setup
  | running
  | finished
deriving DecidableEq, Repr, Inhabited

/-- The `useState` pieces of the `Exam` component that the exam-flow
claims mention.  `selectedAnswer` is the JS string state, with `""`
(falsy, meaning unanswered) modelled as `none`; `userAnswers` models the
JS array with holes (`undefined` entries as `none`). -/
structure ExamSession where
  examState : ExamPhase
  currentQuestionIndex : Nat
  selectedAnswer : Option String
  showResult : Bool
  showTranslation : Bool
  correctAnswers : Nat
  userAnswers : List (Option String)
  examQuestions : List Question
deriving DecidableEq, Repr, Inhabited

/-- JS sparse-array assignment `arr[i] = v` on a copy of `arr`: indices
beyond the current length are filled with holes. -/
def jsArraySet (l : List (Option String)) (i : Nat) (v : String) : List (Option String) :=
  if i < l.length then l.set i (some v)
  else l ++ List.replicate (i - l.length) none ++ [some v]

/-- The fixed auto-advance delay of the exam flow
(`setTimeout(..., 2000)` in `handleAnswerSelect`). -/
def examAdvanceDelayMs : Nat := 2000

/-- The `setTimeout` callback of the exam's `handleAnswerSelect`
(Exam.tsx lines 216-225): advance to the next question and reset the
per-question transient state, or finish on the last question. -/
def examAdvance (s : ExamSession) : ExamSession :=
  if s.currentQuestionIndex < s.examQuestions.length - 1 then
    { s with
      currentQuestionIndex := s.currentQuestionIndex + 1
      selectedAnswer := none
      showResult := false
      showTranslation := false }
  else
    { s with examState := ExamPhase.finished }

/-- `handleAnswerSelect` of the exam flow (Exam.tsx lines 200-226).
Returns the updated session and the delay of the scheduled auto-advance
(`none` when the guard rejected the selection and nothing was
scheduled).  The correctness test is the source's raw strict equality
`answer === examQuestions[currentQuestionIndex].correct_option`. -/
def examAnswerSelect (s : ExamSession) (answer : String) : ExamSession × Option Nat :=
  if s.selectedAnswer.isSome ∨ s.showResult then (s, none)
  else
    let q := s.examQuestions.getD s.currentQuestionIndex default
    ({ s with
        selectedAnswer := some answer
        showResult := true
        correctAnswers := s.correctAnswers + (if answer = q.correct_option then 1 else 0)
        userAnswers := jsArraySet s.userAnswers s.currentQuestionIndex answer },
      some examAdvanceDelayMs)

/-- `startExam` (Exam.tsx lines 172-198): requires a selected state;
`result` is the outcome of `generateExamQuestions` (or of its underlying
fetches).  On error only a toast is shown and the session is untouched. -/
def startExam (s : ExamSession) (selectedState : Option String)
    (result : Except String (List Question)) : ExamSession :=
  if selectedState.isNone then s
  else
    match result with
    | Except.error _ => s
    | Except.ok qs =>
      { s with
        examQuestions := qs
        examState := ExamPhase.running
        currentQuestionIndex := 0
        selectedAnswer := none
        showResult := false
        correctAnswers := 0
        userAnswers := [] }

/-- `const passed = correctAnswers >= 17` (Exam.tsx line 242). -/
def passed (s : ExamSession) : Bool :=
  decide (17 ≤ s.correctAnswers)

/-- A finished exam session with a given score, for witnesses. -/
def finishedSession (score : Nat) : ExamSession :=
  { examState := ExamPhase.finished
    currentQuestionIndex := 32
    selectedAnswer := none
    showResult := false
    showTranslation := false
    correctAnswers := score
    userAnswers := []
    examQuestions := [] }

/-- A question whose correct answer is stored as an upper-case letter:
its normalized key is a, but the raw field differs from the key "a". -/
def cexUpperQuestion : Question :=
  { id := "q2"
    question_text := "Wann ist die Bundesrepublik Deutschland entstanden?"
    option_a := "1949"
    option_b := "1933"
    option_c := "1871"
    option_d := "1990"
    correct_option := "A"
    category := "general"
    has_image := false
    image_path := none
    state_id := none }

/-- A running exam session positioned on `cexUpperQuestion`. -/
def cexExamSession : ExamSession :=
  { examState := ExamPhase.running
    currentQuestionIndex := 0
    selectedAnswer := none
    showResult := false
    showTranslation := false
    correctAnswers := 0
    userAnswers := []
    examQuestions := [cexUpperQuestion] }

/-! ## Question sampler (`shuffleArray` and `generateExamQuestions`,
Exam.tsx lines 87-132) -/

/-- The body of one Fisher-Yates iteration:
`[shuffled[i], shuffled[j]] = [shuffled[j], shuffled[i]]`.
Out-of-range indices leave the list unchanged (the source never hits
that case: `j <= i < length`). -/
def listSwap (l : List α) (i j : Nat) : List α :=
  match l.get? i, l.get? j with
  | some x, some y => (l.set i y).set j x
  | _, _ => l

/-- The loop `for (let i = length - 1; i > 0; i--)` of `shuffleArray`.
`rand i` models `Math.floor(Math.random() * (i + 1))`; the `% (i + 1)`
keeps the draw in the range `0..i` that the source guarantees, for an
arbitrary random source. -/
def shuffleLoop (rand : Nat → Nat) : List α → Nat → List α
  | l, 0 => l
  | l, i + 1 => shuffleLoop rand (listSwap l (i + 1) (rand (i + 1) % (i + 2))) i

/-- `shuffleArray` (Exam.tsx lines 87-94): copy, then Fisher-Yates
downwards.  The copy (`[...array]`) is implicit in the functional
embedding: the argument list is never modified. -/
def shuffleArray (l : List α) (rand : Nat → Nat) : List α :=
  shuffleLoop rand l (l.length - 1)

/-- `generateExamQuestions` (Exam.tsx lines 96-132), given the two
fetched pools: fail when the general pool has fewer than 30 questions or
the region pool fewer than 3 (with the source's German messages),
otherwise take 30 resp. 3 from independently shuffled copies of the
pools and shuffle the concatenation once more.  `r1 r2 r3` model the
three random sources consumed. -/
def generateExamQuestions (general stateQs : List Question)
    (r1 r2 r3 : Nat → Nat) : Except String (List Question) :=
  if general.length < 30 then
    Except.error "Nicht genügend allgemeine Fragen verfügbar"
  else if stateQs.length < 3 then
    Except.error "Nicht genügend bundeslandspezifische Fragen verfügbar"
  else
    Except.ok (shuffleArray ((shuffleArray general r1).take 30 ++ (shuffleArray stateQs r2).take 3) r3)

/-- A stock of pairwise distinct questions, for witnesses. -/
def mkQ (n : Nat) : Question :=
  { id := "q" ++ toString n
    question_text := ""
    option_a := ""
    option_b := ""
    option_c := ""
    option_d := ""
    correct_option := "a"
    category := "general"
    has_image := false
    image_path := none
    state_id := none }

def witnessGeneralPool : List Question := (List.range 30).map mkQ

def witnessStatePool : List Question := (List.range 3).map (fun n => mkQ (30 + n))

/-! ## Training session state machine (the feature-complete `Training`
component, Exam.tsx lines 605-1378)

The timer claims concern the component state
(`currentQuestion`, `selectedAnswer`, `showCorrectAnswer`,
`showTranslation`, `jumpToQuestion`, `speedMode`, `answerTimer`) together
with the browser's set of outstanding `setTimeout` timers and React's
effect semantics.  Events are user interactions plus timer firing and a
questions (re)load; after each event, the auto-reveal `useEffect`
(lines 907-919) re-runs iff one of its dependencies
`[currentQuestion, showCorrectAnswer, selectedAnswer, questions,
revealDelay]` changed, first running the cleanup of its previous run.
The list of questions is abstracted to its length (`numQuestions`) and an
identity counter (`questionsVersion`, since React compares the array by
reference), which is all the timer logic inspects. -/

inductive SpeedMode
  | langsam
  | schnell
deriving DecidableEq, Repr

/-- `revealDelay` (Exam.tsx line 784): `Schnell = 10s, Langsam = 30s`. -/
def revealDelayOf : SpeedMode → Nat
  | SpeedMode.schnell => 10000
  | SpeedMode.langsam => 30000

/-- An outstanding `setTimeout` auto-reveal timer: its handle and the
delay it was armed with. -/
structure Timer where
  handle : Nat
  delay : Nat
deriving DecidableEq, Repr

structure TrainingState where
  numQuestions : Nat
  questionsVersion : Nat
  currentQuestion : Nat
  selectedAnswer : Option String
  showCorrectAnswer : Bool
  showTranslation : Bool
  jumpToQuestion : String
  speedMode : SpeedMode
  /-- the `answerTimer` React state (may be stale after a fire) -/
  answerTimer : Option Nat
  /-- the handle the pending effect cleanup will clear: the timer armed
  by the effect's last run, or the `answerTimer` captured by the last
  non-arming run -/
  cleanupTarget : Option Nat
  /-- outstanding timers in the browser -/
  timers : List Timer
  /-- fresh-handle counter -/
  nextHandle : Nat
deriving DecidableEq, Repr

def revealDelay (s : TrainingState) : Nat :=
  revealDelayOf s.speedMode

/-- `clearTimeout(h)`: remove handle `h` from the outstanding timers
(a no-op for fired, cleared or unknown handles, as in the browser). -/
def clearTimeout (timers : List Timer) (h : Nat) : List Timer :=
  timers.filter (fun t => t.handle ≠ h)

/-- `if (answerTimer) { clearTimeout(answerTimer); setAnswerTimer(null); }`
as it appears in `resetAnswerState` and `handleAnswerSelect`. -/
def clearAnswerTimer (s : TrainingState) : TrainingState :=
  match s.answerTimer with
  | none => s
  | some h => { s with timers := clearTimeout s.timers h, answerTimer := none }

/-- `resetAnswerState` (Exam.tsx lines 867-874). -/
def resetAnswerState (s : TrainingState) : TrainingState :=
  clearAnswerTimer { s with selectedAnswer := none, showCorrectAnswer := false }

/-- The events that drive the Training component. -/
inductive TEvent
  | selectAnswer (a : String)
  | next
  | prev
  | jump
  | typeJump (text : String)
  | toggleSpeed (m : SpeedMode)
  | toggleTranslation
  | loadQuestions (n : Nat)
  | timerFire (h : Nat)

/-- The event handlers of the Training component (Exam.tsx lines
816-919): `handleAnswerSelect`, `nextQuestion`, `prevQuestion`,
`handleJumpToQuestion`, the jump-input `onChange`, the speed toggle, the
translation toggle, the questions-fetch effect, and the firing of an
outstanding auto-reveal timer (whose callback is
`setShowCorrectAnswer(true)`). -/
def handle : TEvent → TrainingState → TrainingState
  | TEvent.selectAnswer a, s =>
    if s.selectedAnswer.isSome || s.showCorrectAnswer then s
    else clearAnswerTimer { s with selectedAnswer := some a, showCorrectAnswer := true }
  | TEvent.next, s =>
    if s.currentQuestion < s.numQuestions - 1 then
      resetAnswerState { s with currentQuestion := s.currentQuestion + 1, showTranslation := false }
    else s
  | TEvent.prev, s =>
    if 0 < s.currentQuestion then
      resetAnswerState { s with currentQuestion := s.currentQuestion - 1, showTranslation := false }
    else s
  | TEvent.jump, s =>
    match jsParseInt s.jumpToQuestion with
    | some n =>
      if 1 ≤ n ∧ n ≤ (s.numQuestions : Int) then
        resetAnswerState { s with
          currentQuestion := (n - 1).toNat
          showTranslation := false
          jumpToQuestion := "" }
      else s
    | none => s
  | TEvent.typeJump text, s => { s with jumpToQuestion := text }
  | TEvent.toggleSpeed m, s => { s with speedMode := m }
  | TEvent.toggleTranslation, s => { s with showTranslation := !s.showTranslation }
  | TEvent.loadQuestions n, s =>
    clearAnswerTimer { s with
      numQuestions := n
      questionsVersion := s.questionsVersion + 1
      currentQuestion := 0
      showTranslation := false
      selectedAnswer := none
      showCorrectAnswer := false }
  | TEvent.timerFire h, s =>
    if s.timers.any (fun t => t.handle = h) then
      { s with timers := clearTimeout s.timers h, showCorrectAnswer := true }
    else s

/-- The arming condition of the auto-reveal effect:
`!showCorrectAnswer && !selectedAnswer && currentQuestionData`
(`questions[currentQuestion]` is defined iff the index is in range). -/
def effectCond (s : TrainingState) : Bool :=
  !s.showCorrectAnswer && s.selectedAnswer.isNone && decide (s.currentQuestion < s.numQuestions)

/-- The dependency array of the auto-reveal effect:
`[currentQuestion, showCorrectAnswer, selectedAnswer, questions, revealDelay]`. -/
def effectDeps (s : TrainingState) : Nat × Bool × Option String × Nat × Nat :=
  (s.currentQuestion, s.showCorrectAnswer, s.selectedAnswer, s.questionsVersion, revealDelay s)

/-- The outstanding timers after the cleanup of the effect's previous
run has executed (`clearTimeout` on the handle that run armed, or on the
captured `answerTimer` for a non-arming run). -/
def clearedTimers (s : TrainingState) : List Timer :=
  match s.cleanupTarget with
  | some h => clearTimeout s.timers h
  | none => s.timers

/-- One run of the auto-reveal effect: first the cleanup of the previous
run, then the body, which arms a fresh timer under the current
`revealDelay` when `effectCond` holds. -/
def runEffect (s : TrainingState) : TrainingState :=
  if effectCond s then
    { s with
      timers := clearedTimers s ++ [{ handle := s.nextHandle, delay := revealDelay s }]
      answerTimer := some s.nextHandle
      cleanupTarget := some s.nextHandle
      nextHandle := s.nextHandle + 1 }
  else
    { s with timers := clearedTimers s, cleanupTarget := s.answerTimer }

/-- One step of the component: run the event handler, then re-run the
auto-reveal effect iff one of its dependencies changed. -/
def step (e : TEvent) (s : TrainingState) : TrainingState :=
  let s' := handle e s
  if effectDeps s' = effectDeps s then s' else runEffect s'

/-- The state after mounting (all `useState` initials, then the first
effect run, which React performs unconditionally on mount). -/
def initTraining : TrainingState :=
  runEffect
    { numQuestions := 0
      questionsVersion := 0
      currentQuestion := 0
      selectedAnswer := none
      showCorrectAnswer := false
      showTranslation := false
      jumpToQuestion := ""
      speedMode := SpeedMode.langsam
      answerTimer := none
      cleanupTarget := none
      timers := []
      nextHandle := 0 }

inductive ReachableT : TrainingState → Prop
  | init : ReachableT initTraining
  | step {s : TrainingState} (e : TEvent) : ReachableT s → ReachableT (step e s)

/-- The timer-discipline invariant: either no timer is outstanding, or
exactly one timer is outstanding, armed under the current delay and only
while the arming condition holds, with `answerTimer` and the pending
cleanup pointing at it; and the position is in range whenever questions
exist.  (The no-timer case does NOT imply the arming condition fails: a
jump to the current question while it is unanswered and unrevealed
clears the timer without changing any effect dependency, so the effect
does not re-arm — see the C6 counterexample.) -/
def PosInv (s : TrainingState) : Prop :=
  s.currentQuestion < s.numQuestions ∨ (s.numQuestions = 0 ∧ s.currentQuestion = 0)

def TimersOk (s : TrainingState) : Prop :=
  s.timers = [] ∨
    (∃ h, s.timers = [{ handle := h, delay := revealDelay s }] ∧ effectCond s = true ∧
      s.answerTimer = some h ∧ s.cleanupTarget = some h ∧ h < s.nextHandle)

def TimerInv (s : TrainingState) : Prop :=
  PosInv s ∧ TimersOk s

/-- The "lost timer" state of the C6 counterexample: load two questions,
type "1" into the jump field, and jump to the current (first) question. -/
def cexLostState : TrainingState :=
  step TEvent.jump (step (TEvent.typeJump "1") (step (TEvent.loadQuestions 2) initTraining))

/-! ## Translation cache (`fetchTranslation`, Exam.tsx lines 921-973) -/

/-- `type Translation` from Exam.tsx. -/
structure Translation where
  question_text : String
  option_a : Option String
  option_b : Option String
  option_c : Option String
  option_d : Option String
deriving DecidableEq, Repr

/-- The outcome the external query would deliver if performed: a query
error, or a (possibly empty) list of rows. -/
inductive FetchOutcome
  | failure
  | success (rows : List Translation)

/-- The state `fetchTranslation` reads and writes: the
`translationsCache` ref, the `translation` state, plus counters for the
external fetches performed and the destructive toasts raised. -/
structure TransState where
  cache : List (String × Translation)
  translation : Option Translation
  fetchCount : Nat
  toastCount : Nat
deriving DecidableEq, Repr

def jsTrimString (s : String) : String :=
  String.mk (jsTrim s.toList)

/-- The cache key: `` `${questionId}:${lang}` ``. -/
def cacheKey (questionId lang : String) : String :=
  questionId ++ ":" ++ lang

/-- `fetchTranslation(questionId, language)` (Exam.tsx lines 922-973):
missing id is a no-op; a cache hit only sets `translation`; on a miss
the external query runs once — a failure raises a toast, caches nothing
and sets `translation` to null (no exception escapes: the function is
total); an empty result caches nothing and sets null; a row is stored
in the cache and set.  `language` is the already-resolved language
argument (`language || selectedLanguage || "persisch"`). -/
def fetchTranslation (s : TransState) (questionId language : String)
    (outcome : FetchOutcome) : TransState :=
  if questionId = "" then s
  else
    let lang := jsTrimString language
    let key := cacheKey questionId lang
    match s.cache.lookup key with
    | some t => { s with translation := some t }
    | none =>
      match outcome with
      | FetchOutcome.failure =>
        { s with
          fetchCount := s.fetchCount + 1
          toastCount := s.toastCount + 1
          translation := none }
      | FetchOutcome.success [] =>
        { s with fetchCount := s.fetchCount + 1, translation := none }
      | FetchOutcome.success (row :: _) =>
        { s with
          fetchCount := s.fetchCount + 1
          cache := (key, row) :: s.cache
          translation := some row }

/-- On strings whose leading integer prefix is at least 1, `parseInt`
agrees with it (the hexadecimal marker forces a prefix of exactly 0). -/
theorem leadingIntVal_pos_jsParseInt (f : String) (n : Int)
    (h : leadingIntVal f = some n) (hn : 1 ≤ n) : jsParseInt f = some n := by
  unfold leadingIntVal at h
  unfold jsParseInt
  rcases hh : hexStart (stripSignChars (f.toList.dropWhile isJsSpace)).2 with _ | _
  · rw [if_neg (by simp only [Bool.not_eq_true]; exact hh)]
    exact h
  · exfalso
    set p := stripSignChars (f.toList.dropWhile isJsSpace) with hp
    have htake : p.2.take 2 = ['0', 'x'] ∨ p.2.take 2 = ['0', 'X'] := of_decide_eq_true hh
    have hzero : ∀ c1, p.2.take 2 = ['0', c1] → (decDigitVal c1).isNone = true →
        readLeading decDigitVal 10 p.1 p.2 = some 0 := by
      intro c1 ht hc1
      have hshape : p.2 = '0' :: c1 :: p.2.drop 2 := by
        conv_lhs => rw [← List.take_append_drop 2 p.2]
        rw [ht]
        rfl
      rw [hshape]
      simp only [readLeading, readDigits]
      rw [show decDigitVal '0' = some 0 from rfl]
      simp only [Option.isSome_some, if_true]
      rcases hc : decDigitVal c1 with _ | v
      · simp
      · rw [hc] at hc1
        simp at hc1
    rcases htake with ht | ht
    · rw [hzero 'x' ht (by decide)] at h
      injection h with h
      omega
    · rw [hzero 'X' ht (by decide)] at h
      injection h with h
      omega

theorem someOrElse (a : α) (b : Option α) : (some a <|> b) = some a := rfl

theorem noneOrElse (b : Option α) : ((none : Option α) <|> b) = b := rfl

theorem consGetLastSome {α : Type} : ∀ (c : α) (l : List α), ∃ last, (c :: l).getLast? = some last
  | c, [] => ⟨c, rfl⟩
  | _, d :: l => by
    obtain ⟨last, h⟩ := consGetLastSome d l
    exact ⟨last, by rw [List.getLast?_cons_cons]; exact h⟩

example : normalizeCorrectOption (some " C ") none = some 'c' := by decide

example : normalizeCorrectOption (some "OPTION_D") none = some 'd' := by decide

example : normalizeCorrectOption (some "2") none = some 'b' := by decide

example : normalizeCorrectOption (some "") none = none := by decide

example : normalizeCorrectOption (some "zzz") none = none := by decide

/-- C2, counterexample: the raw value "Dresden" is exactly the text of
option C (and of no other option), yet `normalizeCorrectOption` returns
the key d, not c: the first-character fallback is tried before the
reverse text lookup, so a raw value equal to an option's exact text does
NOT always map to that option's letter. -/
theorem normalizeCorrectOption_text_rule_cex :
    jsToLower (jsTrim cexTextQuestion.correct_option.toList) =
      jsToLower (jsTrim cexTextQuestion.option_c.toList) ∧
    (∀ t ∈ [cexTextQuestion.option_a, cexTextQuestion.option_b, cexTextQuestion.option_d],
      jsToLower (jsTrim cexTextQuestion.correct_option.toList) ≠ jsToLower (jsTrim t.toList)) ∧
    normalizeCorrectOption (some cexTextQuestion.correct_option) (some cexTextQuestion) = some 'd' ∧
    normalizeCorrectOption (some cexTextQuestion.correct_option) (some cexTextQuestion) ≠ some 'c' := by
  refine ⟨by decide, by decide, by decide, by decide⟩

/-- C2, amended: `normalizeCorrectOption` tries its rules in the
source's fixed order — singleton letter, digit 1-4 (positional),
`option_<letter>` token, then a first-character fallback (any raw value
whose first character is one of a-d yields that letter), and only
afterwards the exact-option-text lookup; a raw value equal to the exact
text of one of the four options maps to that option's letter only when
no earlier rule (in particular the first-character fallback) fires;
unrecognized input, including the empty string, gives none. -/
theorem normalizeCorrectOption_rules (q : Question) (v : String) :
    (normalizeCorrectOption none (some q) = none) ∧
    (jsToLower (jsTrim v.toList) = [] → normalizeCorrectOption (some v) (some q) = none) ∧
    (∀ c, isLetterKey c → jsToLower (jsTrim v.toList) = [c] →
      normalizeCorrectOption (some v) (some q) = some c) ∧
    (∀ p ∈ [('1', 'a'), ('2', 'b'), ('3', 'c'), ('4', 'd')],
      jsToLower (jsTrim v.toList) = [p.1] →
      normalizeCorrectOption (some v) (some q) = some p.2) ∧
    (∀ rest c, jsToLower (jsTrim v.toList) = 'o' :: 'p' :: 't' :: 'i' :: 'o' :: 'n' :: '_' :: rest →
      ('o' :: 'p' :: 't' :: 'i' :: 'o' :: 'n' :: '_' :: rest).getLast? = some c → isLetterKey c →
      normalizeCorrectOption (some v) (some q) = some c) ∧
    (∀ c rest, jsToLower (jsTrim v.toList) = c :: rest → isLetterKey c →
      normalizeCorrectOption (some v) (some q) = some c) ∧
    (∀ c rest, jsToLower (jsTrim v.toList) = c :: rest → ¬ isLetterKey c →
      (c :: rest) ∉ [['1'], ['2'], ['3'], ['4']] →
      (∀ rest2 c2, c :: rest = 'o' :: 'p' :: 't' :: 'i' :: 'o' :: 'n' :: '_' :: rest2 →
        (c :: rest).getLast? = some c2 → ¬ isLetterKey c2) →
      normalizeCorrectOption (some v) (some q) = textKeyLookup (c :: rest) q) := by
  refine ⟨rfl, fun h => ?_, fun c hc h => ?_, fun p hp h => ?_, fun rest c hraw hlast hc => ?_,
    fun c rest hraw hc => ?_, fun c rest hraw hc hdig hopt => ?_⟩
  · simp only [normalizeCorrectOption]
    rw [h]
    rfl
  · simp only [normalizeCorrectOption]
    rw [h]
    simp only [isLetterKey, decide_eq_true_eq] at hc
    rcases hc with h1 | h1 | h1 | h1 <;> subst h1 <;> rfl
  · simp only [normalizeCorrectOption]
    rw [h]
    fin_cases hp <;> rfl
  · simp only [normalizeCorrectOption]
    rw [hraw]
    simp only [normalizeRawKey]
    rw [if_neg (by simp), if_neg (by simp), if_neg (by simp)]
    rw [if_pos (show optionShape ('o' :: 'p' :: 't' :: 'i' :: 'o' :: 'n' :: '_' :: rest) = true by
      simp [optionShape])]
    rw [hlast]
    simp [hc, someOrElse, noneOrElse]
  · simp only [normalizeCorrectOption]
    rw [hraw]
    simp only [isLetterKey, decide_eq_true_eq] at hc
    simp only [normalizeRawKey]
    rw [if_neg (by simp)]
    rcases hc with h1 | h1 | h1 | h1 <;> subst h1 <;>
      rcases Decidable.em (rest = []) with hr | hr
    · subst hr; rfl
    · rw [if_neg (by simp [hr]), if_neg (by simp),
        if_neg (show ¬ optionShape ('a' :: rest) = true by simp [optionShape]),
        List.head?_cons]
      rfl
    · subst hr; rfl
    · rw [if_neg (by simp [hr]), if_neg (by simp),
        if_neg (show ¬ optionShape ('b' :: rest) = true by simp [optionShape]),
        List.head?_cons]
      rfl
    · subst hr; rfl
    · rw [if_neg (by simp [hr]), if_neg (by simp),
        if_neg (show ¬ optionShape ('c' :: rest) = true by simp [optionShape]),
        List.head?_cons]
      rfl
    · subst hr; rfl
    · rw [if_neg (by simp [hr]), if_neg (by simp),
        if_neg (show ¬ optionShape ('d' :: rest) = true by simp [optionShape]),
        List.head?_cons]
      rfl
  · simp only [normalizeCorrectOption]
    rw [hraw]
    simp only [normalizeRawKey]
    rw [if_neg (by simp)]
    have hletters : ¬ (c :: rest = ['a'] ∨ c :: rest = ['b'] ∨ c :: rest = ['c'] ∨ c :: rest = ['d']) := by
      rintro (h1 | h1 | h1 | h1) <;> (injection h1 with h2 _; subst h2; exact hc (by decide))
    have hdigits : ¬ (c :: rest = ['1'] ∨ c :: rest = ['2'] ∨ c :: rest = ['3'] ∨ c :: rest = ['4']) := by
      rintro (h1 | h1 | h1 | h1) <;> simp_all [isLetterKey]
    rw [if_neg hletters, if_neg hdigits]
    have hoption : (if optionShape (c :: rest) = true then
        (match (c :: rest).getLast? with
          | some last => if isLetterKey last then some last else none
          | none => none)
        else none) = (none : Option Char) := by
      rcases hsh : optionShape (c :: rest) with _ | _
      · rw [if_neg (by simp [hsh])]
      · rw [if_pos (by simp [hsh])]
        have htake : (c :: rest).take 7 = ['o', 'p', 't', 'i', 'o', 'n', '_'] := by
          have := of_decide_eq_true hsh
          exact this
        have hshape : c :: rest = 'o' :: 'p' :: 't' :: 'i' :: 'o' :: 'n' :: '_' :: (c :: rest).drop 7 := by
          conv_lhs => rw [← List.take_append_drop 7 (c :: rest)]
          rw [htake]
          rfl
        obtain ⟨last, hl⟩ := consGetLastSome c rest
        rw [hl]
        simp [hopt ((c :: rest).drop 7) last hshape hl]
    rw [hoption, List.head?_cons]
    simp [hc, noneOrElse]

/-- Witness for the amended C2 theorem at concrete inputs: the
`option_<letter>` clause applied to "OPTION_B". -/
theorem normalizeCorrectOption_rules_witness :
    normalizeCorrectOption (some "OPTION_B") (some cexTextQuestion) = some 'b' :=
  (normalizeCorrectOption_rules cexTextQuestion "OPTION_B").2.2.2.2.1 ['b'] 'b'
    (by decide) (by decide) (by decide)

/-- C5: a finished exam session is passed iff the final score is at
least 17; 17 of 33 passes, 16 of 33 fails, and the outcome depends on
nothing but the score (the threshold is a fixed literal). -/
theorem exam_pass_threshold (s : ExamSession) (h : s.examState = ExamPhase.finished) :
    (passed s = true ↔ 17 ≤ s.correctAnswers) ∧
    (s.correctAnswers = 17 → passed s = true) ∧
    (s.correctAnswers = 16 → passed s = false) ∧
    (∀ s' : ExamSession, s'.correctAnswers = s.correctAnswers → passed s' = passed s) := by
  refine ⟨by simp [passed], fun h17 => by simp [passed, h17], fun h16 => by simp [passed, h16],
    fun s' hs => by simp [passed, hs]⟩

/-- Witness for C5 at the boundary scores 17 and 16. -/
theorem exam_pass_threshold_witness :
    passed (finishedSession 17) = true ∧ passed (finishedSession 16) = false :=
  ⟨(exam_pass_threshold (finishedSession 17) rfl).2.1 rfl,
   (exam_pass_threshold (finishedSession 16) rfl).2.2.1 rfl⟩

/-- C1, counterexample: in a running exam session on an unanswered
question whose `correct_option` is stored as "A", selecting the option
key "a" — which equals the question's normalized correct key — does NOT
increment the score: the exam flow compares the selected key against the
raw `correct_option` string, not against the normalized key. -/
theorem exam_answer_normalized_cex :
    cexExamSession.examState = ExamPhase.running ∧
    cexExamSession.selectedAnswer = none ∧
    cexExamSession.showResult = false ∧
    cexExamSession.correctAnswers = 0 ∧
    normalizeCorrectOption (some cexUpperQuestion.correct_option) (some cexUpperQuestion) = some 'a' ∧
    (examAnswerSelect cexExamSession "a").1.selectedAnswer = some "a" ∧
    (examAnswerSelect cexExamSession "a").1.correctAnswers = 0 := by
  refine ⟨rfl, rfl, rfl, rfl, by decide, by decide, by decide⟩

/-- C1, amended: in the exam flow, while the session is running and the
current question is unanswered, selecting an option records it, sets
reveal, increments the score iff the selected key equals the RAW
`correct_option` string of the question (no normalization), and
schedules an automatic advance firing exactly 2000 ms later that either
advances the position by one and resets the per-question transient state
(selected answer, reveal flag, translation flag) or, on the last
question, finishes the session; a selection made while an answer is
recorded or the result is shown changes nothing. -/
theorem exam_answer_select (s : ExamSession) (a : String)
    (hrun : s.examState = ExamPhase.running)
    (hidx : s.currentQuestionIndex < s.examQuestions.length) :
    ((s.selectedAnswer.isSome ∨ s.showResult = true) → examAnswerSelect s a = (s, none)) ∧
    (s.selectedAnswer = none → s.showResult = false →
      ((examAnswerSelect s a).1.selectedAnswer = some a ∧
       (examAnswerSelect s a).1.showResult = true ∧
       (examAnswerSelect s a).1.correctAnswers = s.correctAnswers +
         (if a = (s.examQuestions.getD s.currentQuestionIndex default).correct_option then 1 else 0) ∧
       (examAnswerSelect s a).1.userAnswers = jsArraySet s.userAnswers s.currentQuestionIndex a ∧
       (examAnswerSelect s a).2 = some 2000 ∧
       (examAnswerSelect s a).1.examState = ExamPhase.running ∧
       (examAnswerSelect s a).1.currentQuestionIndex = s.currentQuestionIndex ∧
       (examAnswerSelect s a).1.examQuestions = s.examQuestions ∧
       (s.currentQuestionIndex + 1 < s.examQuestions.length →
         examAdvance (examAnswerSelect s a).1 =
           { (examAnswerSelect s a).1 with
             currentQuestionIndex := s.currentQuestionIndex + 1
             selectedAnswer := none
             showResult := false
             showTranslation := false }) ∧
       (s.currentQuestionIndex + 1 = s.examQuestions.length →
         (examAdvance (examAnswerSelect s a).1).examState = ExamPhase.finished ∧
         (examAdvance (examAnswerSelect s a).1).currentQuestionIndex = s.currentQuestionIndex ∧
         (examAdvance (examAnswerSelect s a).1).correctAnswers =
           (examAnswerSelect s a).1.correctAnswers))) := by
  constructor
  · intro hguard
    rcases hguard with hg | hg
    · simp [examAnswerSelect, hg]
    · simp [examAnswerSelect, hg]
  · intro hsel hres
    have hg : ¬ (s.selectedAnswer.isSome ∨ s.showResult = true) := by
      simp [hsel, hres]
    simp only [examAnswerSelect, hsel, hres]
    refine ⟨by simp, by simp, by simp, by simp, by simp [examAdvanceDelayMs], by simp [hrun],
      by simp, by simp, fun hlt => ?_, fun heq => ?_⟩
    · have : s.currentQuestionIndex < s.examQuestions.length - 1 := by omega
      simp [examAdvance, this]
    · have : ¬ (s.currentQuestionIndex < s.examQuestions.length - 1) := by omega
      simp [examAdvance, this]

/-- Witness for the amended C1 theorem: a concrete running session where
the selected key matches the raw `correct_option` and scores. -/
theorem exam_answer_select_witness :
    (examAnswerSelect
      { cexExamSession with examQuestions := [{ cexUpperQuestion with correct_option := "a" }] }
      "a").1.correctAnswers = 0 + 1 := by
  have h := exam_answer_select
    { cexExamSession with examQuestions := [{ cexUpperQuestion with correct_option := "a" }] }
    "a" rfl (by decide)
  have h2 := (h.2 rfl rfl).2.2.1
  rw [h2]
  decide

theorem cons_set_perm (t : List α) (k : Nat) (a y : α) (hk : t.get? k = some y) :
    List.Perm (y :: t.set k a) (a :: t) := by
  induction t generalizing k with
  | nil => simp at hk
  | cons b t ih =>
    cases k with
    | zero =>
      simp only [List.get?] at hk
      injection hk with hk
      subst hk
      exact List.Perm.swap a b t
    | succ k =>
      simp only [List.get?] at hk
      exact (List.Perm.swap b y (t.set k a)).trans
        (((ih k hk).cons b).trans (List.Perm.swap a b t))

theorem set_set_perm (l : List α) (i j : Nat) (x y : α)
    (hi : l.get? i = some x) (hj : l.get? j = some y) :
    List.Perm ((l.set i y).set j x) l := by
  induction l generalizing i j with
  | nil => simp at hi
  | cons b t ih =>
    cases i with
    | zero =>
      simp only [List.get?] at hi
      injection hi with hi
      subst hi
      cases j with
      | zero =>
        simp only [List.get?] at hj
        injection hj with hj
        subst hj
        exact List.Perm.refl _
      | succ k =>
        simp only [List.get?] at hj
        simp only [List.set]
        exact cons_set_perm t k _ _ hj
    | succ m =>
      simp only [List.get?] at hi
      cases j with
      | zero =>
        simp only [List.get?] at hj
        injection hj with hj
        subst hj
        simp only [List.set]
        exact cons_set_perm t m _ _ hi
      | succ k =>
        simp only [List.get?] at hj
        simp only [List.set]
        exact (ih m k hi hj).cons b

theorem listSwap_perm (l : List α) (i j : Nat) : List.Perm (listSwap l i j) l := by
  unfold listSwap
  cases hi : l.get? i with
  | none => exact List.Perm.refl l
  | some x =>
    cases hj : l.get? j with
    | none => exact List.Perm.refl l
    | some y => exact set_set_perm l i j x y hi hj

theorem shuffleLoop_perm (rand : Nat → Nat) : ∀ (i : Nat) (l : List α),
    List.Perm (shuffleLoop rand l i) l
  | 0, _ => List.Perm.refl _
  | i + 1, l =>
    (shuffleLoop_perm rand i (listSwap l (i + 1) (rand (i + 1) % (i + 2)))).trans
      (listSwap_perm l (i + 1) (rand (i + 1) % (i + 2)))

theorem shuffleArray_perm (l : List α) (rand : Nat → Nat) :
    List.Perm (shuffleArray l rand) l :=
  shuffleLoop_perm rand (l.length - 1) l

/-- C3: with at least 30 general and 3 region questions (and pools of
pairwise distinct questions, the data model's unique-id invariant),
`generateExamQuestions` succeeds with exactly 33 questions: 30 from the
general pool, 3 from the region pool, no duplicates, and every result
question comes from one of the pools.  The source pools are untouched:
the embedding is purely functional because the source shuffles copies. -/
theorem generateExamQuestions_composition (general stateQs : List Question)
    (r1 r2 r3 : Nat → Nat)
    (hg : 30 ≤ general.length) (hs : 3 ≤ stateQs.length)
    (hnd : (general ++ stateQs).Nodup) :
    ∃ qs, generateExamQuestions general stateQs r1 r2 r3 = Except.ok qs ∧
      qs.length = 33 ∧
      qs.countP (fun q => decide (q ∈ general)) = 30 ∧
      qs.countP (fun q => decide (q ∈ stateQs)) = 3 ∧
      qs.Nodup ∧
      (∀ q ∈ qs, q ∈ general ∨ q ∈ stateQs) := by
  rw [List.nodup_append] at hnd
  obtain ⟨hndg, hnds, hdisj⟩ := hnd
  set g30 : List Question := (shuffleArray general r1).take 30 with hg30
  set s3 : List Question := (shuffleArray stateQs r2).take 3 with hs3
  set qs : List Question := shuffleArray (g30 ++ s3) r3 with hqs
  have hpg : List.Perm (shuffleArray general r1) general := shuffleArray_perm general r1
  have hps : List.Perm (shuffleArray stateQs r2) stateQs := shuffleArray_perm stateQs r2
  have hpq : List.Perm qs (g30 ++ s3) := shuffleArray_perm (g30 ++ s3) r3
  have hlg : g30.length = 30 := by
    rw [hg30, List.length_take, hpg.length_eq]
    omega
  have hls : s3.length = 3 := by
    rw [hs3, List.length_take, hps.length_eq]
    omega
  have hsubg : g30 ⊆ general := fun q hq =>
    hpg.subset (List.take_subset 30 (shuffleArray general r1) hq)
  have hsubs : s3 ⊆ stateQs := fun q hq =>
    hps.subset (List.take_subset 3 (shuffleArray stateQs r2) hq)
  have hndg30 : g30.Nodup := ((List.take_sublist 30 _).nodup) (hpg.nodup_iff.mpr hndg)
  have hnds3 : s3.Nodup := ((List.take_sublist 3 _).nodup) (hps.nodup_iff.mpr hnds)
  have hdisj2 : g30.Disjoint s3 := fun q hq hq2 => hdisj (hsubg hq) (hsubs hq2)
  refine ⟨qs, ?_, ?_, ?_, ?_, ?_, ?_⟩
  · simp only [generateExamQuestions]
    rw [if_neg (by omega), if_neg (by omega)]
  · rw [hpq.length_eq, List.length_append, hlg, hls]
  · rw [hpq.countP_eq, List.countP_append]
    have c1 : g30.countP (fun q => decide (q ∈ general)) = 30 := by
      rw [← hlg]
      apply List.countP_eq_length.mpr
      intro q hq
      simpa using hsubg hq
    have c2 : s3.countP (fun q => decide (q ∈ general)) = 0 := by
      apply List.countP_eq_zero.mpr
      intro q hq
      simpa using fun hmem => hdisj hmem (hsubs hq)
    omega
  · rw [hpq.countP_eq, List.countP_append]
    have c1 : g30.countP (fun q => decide (q ∈ stateQs)) = 0 := by
      apply List.countP_eq_zero.mpr
      intro q hq
      simpa using fun hmem => hdisj (hsubg hq) hmem
    have c2 : s3.countP (fun q => decide (q ∈ stateQs)) = 3 := by
      rw [← hls]
      apply List.countP_eq_length.mpr
      intro q hq
      simpa using hsubs hq
    omega
  · exact hpq.nodup_iff.mpr (List.nodup_append.mpr ⟨hndg30, hnds3, hdisj2⟩)
  · intro q hq
    rcases List.mem_append.mp (hpq.subset hq) with h | h
    · exact Or.inl (hsubg h)
    · exact Or.inr (hsubs h)

/-- Witness for C3 on concrete pools of 30 and 3 distinct questions. -/
theorem generateExamQuestions_composition_witness :
    ∃ qs, generateExamQuestions witnessGeneralPool witnessStatePool
        (fun _ => 0) (fun _ => 0) (fun _ => 0) = Except.ok qs ∧ qs.length = 33 := by
  obtain ⟨qs, h1, h2, _⟩ := generateExamQuestions_composition witnessGeneralPool witnessStatePool
    (fun _ => 0) (fun _ => 0) (fun _ => 0) (by decide) (by decide) (by decide)
  exact ⟨qs, h1, h2⟩

/-- C4: with too few general or region questions,
`generateExamQuestions` fails for every random source; a failed sampling
leaves `startExam`'s session completely unchanged (same phase, position,
score, answer record and question sequence), so a session in `setup`
stays in `setup` and no partial session exists. -/
theorem generateExamQuestions_failure (general stateQs : List Question)
    (h : general.length < 30 ∨ stateQs.length < 3) :
    (∀ r1 r2 r3 : Nat → Nat,
      ∃ msg, generateExamQuestions general stateQs r1 r2 r3 = Except.error msg) ∧
    (∀ (s : ExamSession) (sel : Option String) (e : String),
      startExam s sel (Except.error e) = s) ∧
    (∀ (s : ExamSession) (sel : Option String) (e : String),
      s.examState = ExamPhase.setup →
      (startExam s sel (Except.error e)).examState = ExamPhase.setup) := by
  refine ⟨fun r1 r2 r3 => ?_, fun s sel e => ?_, fun s sel e hsetup => ?_⟩
  · rcases Decidable.em (general.length < 30) with hlt | hge
    · exact ⟨_, by simp only [generateExamQuestions]; rw [if_pos hlt]⟩
    · have hlt3 : stateQs.length < 3 := by omega
      exact ⟨_, by simp only [generateExamQuestions]; rw [if_neg hge, if_pos hlt3]⟩
  · rcases sel with _ | v
    · rfl
    · rfl
  · rcases sel with _ | v
    · simpa using hsetup
    · simpa using hsetup

/-- Witness for C4 on concrete short pools and a concrete session. -/
theorem generateExamQuestions_failure_witness :
    (∃ msg, generateExamQuestions [] [] (fun _ => 0) (fun _ => 0) (fun _ => 0) =
      Except.error msg) ∧
    startExam (finishedSession 0) (some "by") (Except.error "fetch failed") = finishedSession 0 := by
  have h := generateExamQuestions_failure [] [] (Or.inl (by decide))
  exact ⟨h.1 (fun _ => 0) (fun _ => 0) (fun _ => 0), h.2.1 (finishedSession 0) (some "by") "fetch failed"⟩

theorem clearTimeout_nil (h : Nat) : clearTimeout [] h = [] := rfl

theorem clearTimeout_single_self (h : Nat) (d : Nat) :
    clearTimeout [{ handle := h, delay := d }] h = [] := by
  simp [clearTimeout]

theorem timersOk_cleared (s : TrainingState) (hT : TimersOk s) : clearedTimers s = [] := by
  rcases hT with hnil | ⟨h, ht, _, _, hct, _⟩
  · unfold clearedTimers
    rcases hc : s.cleanupTarget with _ | h0
    · exact hnil
    · rw [hnil]
      rfl
  · unfold clearedTimers
    rw [hct, ht]
    exact clearTimeout_single_self h (revealDelay s)

theorem runEffect_arm (s : TrainingState) (hc : effectCond s = true)
    (hclear : clearedTimers s = []) :
    runEffect s = { s with
      timers := [{ handle := s.nextHandle, delay := revealDelay s }]
      answerTimer := some s.nextHandle
      cleanupTarget := some s.nextHandle
      nextHandle := s.nextHandle + 1 } := by
  simp [runEffect, hc, hclear]

theorem runEffect_idle (s : TrainingState) (hc : effectCond s = false) :
    runEffect s = { s with timers := clearedTimers s, cleanupTarget := s.answerTimer } := by
  simp [runEffect, hc]

theorem timerInv_effect (s₁ : TrainingState) (hpos : PosInv s₁)
    (hclear : clearedTimers s₁ = []) : TimerInv (runEffect s₁) := by
  rcases hc : effectCond s₁ with _ | _
  · rw [runEffect_idle s₁ hc]
    exact ⟨hpos, Or.inl hclear⟩
  · rw [runEffect_arm s₁ hc hclear]
    refine ⟨hpos, Or.inr ⟨s₁.nextHandle, ?_, ?_, rfl, rfl, Nat.lt_succ_self _⟩⟩
    · simp [revealDelay]
    · simp only [effectCond, revealDelay] at hc ⊢
      exact hc

theorem timers_nil_cleared (s : TrainingState) (h : s.timers = []) : clearedTimers s = [] := by
  unfold clearedTimers
  rcases hc : s.cleanupTarget with _ | h0
  · exact h
  · rw [h]
    rfl

/-- If the handler left no outstanding timer, the step preserves the
invariant whether or not the effect re-runs. -/
theorem timerInv_branch (s₁ s : TrainingState) (hpos : PosInv s₁) (hnil : s₁.timers = []) :
    TimerInv (if effectDeps s₁ = effectDeps s then s₁ else runEffect s₁) := by
  split
  · exact ⟨hpos, Or.inl hnil⟩
  · exact timerInv_effect s₁ hpos (timers_nil_cleared s₁ hnil)

theorem clearAnswerTimer_timers_nil (s : TrainingState)
    (h : s.timers = [] ∨ ∃ h0 d, s.timers = [{ handle := h0, delay := d }] ∧ s.answerTimer = some h0) :
    (clearAnswerTimer s).timers = [] := by
  rcases h with h | ⟨h0, d, ht, ha⟩
  · rcases hat : s.answerTimer with _ | h1 <;> simp [clearAnswerTimer, hat, h, clearTimeout]
  · simp [clearAnswerTimer, ha, ht, clearTimeout]

theorem step_eq (e : TEvent) (s : TrainingState) :
    step e s = if effectDeps (handle e s) = effectDeps s then handle e s
      else runEffect (handle e s) := rfl

theorem clearAnswerTimer_proj (s : TrainingState) :
    (clearAnswerTimer s).numQuestions = s.numQuestions ∧
    (clearAnswerTimer s).currentQuestion = s.currentQuestion ∧
    (clearAnswerTimer s).selectedAnswer = s.selectedAnswer ∧
    (clearAnswerTimer s).showCorrectAnswer = s.showCorrectAnswer := by
  cases hat : s.answerTimer <;> simp [clearAnswerTimer, hat]

theorem resetAnswerState_proj (s : TrainingState) :
    (resetAnswerState s).numQuestions = s.numQuestions ∧
    (resetAnswerState s).currentQuestion = s.currentQuestion ∧
    (resetAnswerState s).selectedAnswer = none ∧
    (resetAnswerState s).showCorrectAnswer = false ∧
    (resetAnswerState s).showTranslation = s.showTranslation ∧
    (resetAnswerState s).jumpToQuestion = s.jumpToQuestion ∧
    (resetAnswerState s).questionsVersion = s.questionsVersion ∧
    (resetAnswerState s).speedMode = s.speedMode ∧
    (resetAnswerState s).nextHandle = s.nextHandle := by
  cases hat : s.answerTimer <;> simp [resetAnswerState, clearAnswerTimer, hat]

theorem runEffect_proj (s : TrainingState) :
    (runEffect s).numQuestions = s.numQuestions ∧
    (runEffect s).currentQuestion = s.currentQuestion ∧
    (runEffect s).selectedAnswer = s.selectedAnswer ∧
    (runEffect s).showCorrectAnswer = s.showCorrectAnswer ∧
    (runEffect s).showTranslation = s.showTranslation ∧
    (runEffect s).jumpToQuestion = s.jumpToQuestion := by
  unfold runEffect
  split <;> exact ⟨rfl, rfl, rfl, rfl, rfl, rfl⟩

theorem timerInv_step (e : TEvent) (s : TrainingState) (hinv : TimerInv s) :
    TimerInv (step e s) := by
  obtain ⟨hpos, hT⟩ := hinv
  have hTnil : s.timers = [] ∨
      ∃ h0 d, s.timers = [{ handle := h0, delay := d }] ∧ s.answerTimer = some h0 := by
    rcases hT with h | ⟨h0, ht, _, ha, _, _⟩
    · exact Or.inl h
    · exact Or.inr ⟨h0, revealDelay s, ht, ha⟩
  have hposn : s.currentQuestion < s.numQuestions ∨
      (s.numQuestions = 0 ∧ s.currentQuestion = 0) := hpos
  cases e with
  | selectAnswer a =>
    rcases Decidable.em ((s.selectedAnswer.isSome || s.showCorrectAnswer) = true) with hg | hg
    · have hh : handle (TEvent.selectAnswer a) s = s := by
        simp only [handle, if_pos hg]
      rw [step_eq, hh, if_pos rfl]
      exact ⟨hpos, hT⟩
    · have hh : handle (TEvent.selectAnswer a) s =
          clearAnswerTimer { s with selectedAnswer := some a, showCorrectAnswer := true } := by
        simp only [handle, if_neg hg]
      rw [step_eq, hh]
      apply timerInv_branch
      · refine Or.elim hposn (fun h1 => Or.inl ?_) (fun h1 => Or.inr ?_)
        · rw [(clearAnswerTimer_proj _).1, (clearAnswerTimer_proj _).2.1]
          exact h1
        · rw [(clearAnswerTimer_proj _).1, (clearAnswerTimer_proj _).2.1]
          exact h1
      · exact clearAnswerTimer_timers_nil _ (by
          rcases hTnil with h | ⟨h0, d, ht, ha⟩
          · exact Or.inl h
          · exact Or.inr ⟨h0, d, ht, ha⟩)
  | next =>
    rcases Decidable.em (s.currentQuestion < s.numQuestions - 1) with hlt | hlt
    · have hh : handle TEvent.next s =
          resetAnswerState { s with currentQuestion := s.currentQuestion + 1, showTranslation := false } := by
        simp only [handle, if_pos hlt]
      rw [step_eq, hh]
      apply timerInv_branch
      · refine Or.inl ?_
        rw [(resetAnswerState_proj _).1, (resetAnswerState_proj _).2.1]
        show s.currentQuestion + 1 < s.numQuestions
        omega
      · apply clearAnswerTimer_timers_nil
        rcases hTnil with h | ⟨h0, d, ht, ha⟩
        · exact Or.inl h
        · exact Or.inr ⟨h0, d, ht, ha⟩
    · have hh : handle TEvent.next s = s := by
        simp only [handle, if_neg hlt]
      rw [step_eq, hh, if_pos rfl]
      exact ⟨hpos, hT⟩
  | prev =>
    rcases Decidable.em (0 < s.currentQuestion) with hlt | hlt
    · have hh : handle TEvent.prev s =
          resetAnswerState { s with currentQuestion := s.currentQuestion - 1, showTranslation := false } := by
        simp only [handle, if_pos hlt]
      rw [step_eq, hh]
      apply timerInv_branch
      · refine Or.inl ?_
        rw [(resetAnswerState_proj _).1, (resetAnswerState_proj _).2.1]
        show s.currentQuestion - 1 < s.numQuestions
        omega
      · apply clearAnswerTimer_timers_nil
        rcases hTnil with h | ⟨h0, d, ht, ha⟩
        · exact Or.inl h
        · exact Or.inr ⟨h0, d, ht, ha⟩
    · have hh : handle TEvent.prev s = s := by
        simp only [handle, if_neg hlt]
      rw [step_eq, hh, if_pos rfl]
      exact ⟨hpos, hT⟩
  | jump =>
    rcases hp : jsParseInt s.jumpToQuestion with _ | n
    · have hh : handle TEvent.jump s = s := by
        simp only [handle, hp]
      rw [step_eq, hh, if_pos rfl]
      exact ⟨hpos, hT⟩
    · rcases Decidable.em (1 ≤ n ∧ n ≤ (s.numQuestions : Int)) with hr | hr
      · have hh : handle TEvent.jump s =
            resetAnswerState { s with
              currentQuestion := (n - 1).toNat
              showTranslation := false
              jumpToQuestion := "" } := by
          simp only [handle, hp]
          rw [if_pos hr]
        rw [step_eq, hh]
        apply timerInv_branch
        · refine Or.inl ?_
          rw [(resetAnswerState_proj _).1, (resetAnswerState_proj _).2.1]
          show (n - 1).toNat < s.numQuestions
          omega
        · apply clearAnswerTimer_timers_nil
          rcases hTnil with h | ⟨h0, d, ht, ha⟩
          · exact Or.inl h
          · exact Or.inr ⟨h0, d, ht, ha⟩
      · have hh : handle TEvent.jump s = s := by
          simp only [handle, hp]
          rw [if_neg hr]
        rw [step_eq, hh, if_pos rfl]
        exact ⟨hpos, hT⟩
  | typeJump text =>
    have hh : handle (TEvent.typeJump text) s = { s with jumpToQuestion := text } := by
      simp only [handle]
    rw [step_eq, hh, if_pos (by simp [effectDeps, revealDelay])]
    refine ⟨hpos, ?_⟩
    rcases hT with h | ⟨h0, ht, hc, ha, hct, hn⟩
    · exact Or.inl h
    · exact Or.inr ⟨h0, ht, by simpa [effectCond] using hc, ha, hct, hn⟩
  | toggleSpeed m =>
    have hh : handle (TEvent.toggleSpeed m) s = { s with speedMode := m } := by
      simp only [handle]
    rcases Decidable.em (revealDelayOf m = revealDelayOf s.speedMode) with hd | hd
    · rw [step_eq, hh, if_pos (by simp [effectDeps, revealDelay, hd])]
      refine ⟨hpos, ?_⟩
      rcases hT with h | ⟨h0, ht, hc, ha, hct, hn⟩
      · exact Or.inl h
      · refine Or.inr ⟨h0, ?_, by simpa [effectCond] using hc, ha, hct, hn⟩
        simpa [revealDelay, hd] using ht
    · rw [step_eq, hh, if_neg (by simp [effectDeps, revealDelay, Prod.ext_iff]; intro h1; exact absurd h1 hd)]
      apply timerInv_effect
      · exact hpos
      · rw [show clearedTimers { s with speedMode := m } = clearedTimers s from rfl]
        exact timersOk_cleared s hT
  | toggleTranslation =>
    have hh : handle TEvent.toggleTranslation s = { s with showTranslation := !s.showTranslation } := by
      simp only [handle]
    rw [step_eq, hh, if_pos (by simp [effectDeps, revealDelay])]
    refine ⟨hpos, ?_⟩
    rcases hT with h | ⟨h0, ht, hc, ha, hct, hn⟩
    · exact Or.inl h
    · exact Or.inr ⟨h0, ht, by simpa [effectCond] using hc, ha, hct, hn⟩
  | loadQuestions n =>
    have hh : handle (TEvent.loadQuestions n) s =
        clearAnswerTimer { s with
          numQuestions := n
          questionsVersion := s.questionsVersion + 1
          currentQuestion := 0
          showTranslation := false
          selectedAnswer := none
          showCorrectAnswer := false } := by
      simp only [handle]
    rw [step_eq, hh]
    apply timerInv_branch
    · unfold PosInv
      rw [(clearAnswerTimer_proj _).1, (clearAnswerTimer_proj _).2.1]
      show 0 < n ∨ (n = 0 ∧ 0 = 0)
      omega
    · apply clearAnswerTimer_timers_nil
      rcases hTnil with h | ⟨h0, d, ht, ha⟩
      · exact Or.inl h
      · exact Or.inr ⟨h0, d, ht, ha⟩
  | timerFire h =>
    rcases hfire : s.timers.any (fun t => t.handle = h) with _ | _
    · have hh : handle (TEvent.timerFire h) s = s := by
        simp only [handle]
        rw [if_neg (by simp [hfire])]
      rw [step_eq, hh, if_pos rfl]
      exact ⟨hpos, hT⟩
    · have hh : handle (TEvent.timerFire h) s =
          { s with timers := clearTimeout s.timers h, showCorrectAnswer := true } := by
        simp only [handle]
        rw [if_pos hfire]
      rw [step_eq, hh]
      apply timerInv_branch
      · exact hpos
      · show clearTimeout s.timers h = []
        rcases hT with hnil | ⟨h0, ht, _, _, _, _⟩
        · rw [hnil] at hfire
          simp [List.any] at hfire
        · rw [ht] at hfire ⊢
          have : h0 = h := by simpa using hfire
          rw [this]
          exact clearTimeout_single_self h _

theorem reachable_timerInv {s : TrainingState} (h : ReachableT s) : TimerInv s := by
  induction h with
  | init => exact ⟨Or.inr ⟨rfl, rfl⟩, Or.inl rfl⟩
  | step e _ ih => exact timerInv_step e _ ih

theorem effectCond_true_iff (s : TrainingState) :
    effectCond s = true ↔
      (s.showCorrectAnswer = false ∧ s.selectedAnswer = none ∧
        s.currentQuestion < s.numQuestions) := by
  constructor
  · intro h
    simp only [effectCond, Bool.and_eq_true, Bool.not_eq_true', Option.isNone_iff_eq_none,
      decide_eq_true_eq] at h
    tauto
  · intro h
    simp only [effectCond, Bool.and_eq_true, Bool.not_eq_true', Option.isNone_iff_eq_none,
      decide_eq_true_eq]
    tauto

theorem step_of_handler_arm (s s₁ : TrainingState)
    (hdeps : effectDeps s₁ ≠ effectDeps s)
    (hc : effectCond s₁ = true)
    (hnil : s₁.timers = []) :
    (if effectDeps s₁ = effectDeps s then s₁ else runEffect s₁) =
      { s₁ with
        timers := [{ handle := s₁.nextHandle, delay := revealDelay s₁ }]
        answerTimer := some s₁.nextHandle
        cleanupTarget := some s₁.nextHandle
        nextHandle := s₁.nextHandle + 1 } := by
  rw [if_neg hdeps]
  exact runEffect_arm s₁ hc (timers_nil_cleared s₁ hnil)

/-- C6, counterexample: `cexLostState` is reachable (load 2 questions,
then jump to question 1 while standing on it), the session is running
(2 questions) with the current question unanswered and not yet revealed,
and yet NO auto-reveal timer is outstanding: the jump cleared the timer
via `resetAnswerState`, but since no effect dependency changed, the
auto-reveal effect did not re-arm one.  This refutes "exactly one is
outstanding while the session is running with the current question
unanswered and not yet revealed" and the "arms a new timer if and only
if the destination question is unanswered" part. -/
theorem training_timer_exactly_one_cex :
    ReachableT cexLostState ∧
    cexLostState.numQuestions = 2 ∧
    cexLostState.currentQuestion = 0 ∧
    cexLostState.selectedAnswer = none ∧
    cexLostState.showCorrectAnswer = false ∧
    cexLostState.timers = [] ∧
    (step (TEvent.loadQuestions 2) initTraining).timers ≠ [] := by
  refine ⟨?_, by decide, by decide, by decide, by decide, by decide, by decide⟩
  exact ReachableT.step TEvent.jump
    (ReachableT.step (TEvent.typeJump "1")
      (ReachableT.step (TEvent.loadQuestions 2) ReachableT.init))

/-- C6 (amended): in every reachable state at most one auto-reveal timer
is outstanding, and an outstanding timer implies the current question
exists, is unanswered and not yet revealed (the converse fails, see the
counterexample: a jump to the current question loses the timer).
Selecting an answer on an unanswered, unrevealed question always leaves
no timer outstanding.  Effective next/prev navigation and jumps that
change the position reset the per-question transient state (selected
answer, reveal flag, translation flag), cancel the old timer, and arm
exactly one fresh timer under the current delay; a jump to the current
position while it is unanswered and unrevealed cancels without
re-arming; reloading the question list to empty (leaving the running
state) also cancels. -/
theorem training_timer_discipline (s : TrainingState) (hs : ReachableT s) :
    s.timers.length ≤ 1 ∧
    (s.timers ≠ [] →
      s.selectedAnswer = none ∧ s.showCorrectAnswer = false ∧
      s.currentQuestion < s.numQuestions ∧
      ∃ h, s.timers = [{ handle := h, delay := revealDelayOf s.speedMode }]) ∧
    (∀ a, s.selectedAnswer = none → s.showCorrectAnswer = false →
      (step (TEvent.selectAnswer a) s).timers = []) ∧
    (s.currentQuestion < s.numQuestions - 1 →
      ((step TEvent.next s).selectedAnswer = none ∧
       (step TEvent.next s).showCorrectAnswer = false ∧
       (step TEvent.next s).showTranslation = false ∧
       (step TEvent.next s).timers =
         [{ handle := s.nextHandle, delay := revealDelayOf s.speedMode }] ∧
       (∀ t ∈ s.timers, t.handle ≠ s.nextHandle))) ∧
    (0 < s.currentQuestion →
      ((step TEvent.prev s).selectedAnswer = none ∧
       (step TEvent.prev s).showCorrectAnswer = false ∧
       (step TEvent.prev s).showTranslation = false ∧
       (step TEvent.prev s).timers =
         [{ handle := s.nextHandle, delay := revealDelayOf s.speedMode }] ∧
       (∀ t ∈ s.timers, t.handle ≠ s.nextHandle))) ∧
    (∀ n : Int, jsParseInt s.jumpToQuestion = some n → 1 ≤ n → n ≤ (s.numQuestions : Int) →
      (n - 1).toNat ≠ s.currentQuestion →
      ((step TEvent.jump s).selectedAnswer = none ∧
       (step TEvent.jump s).showCorrectAnswer = false ∧
       (step TEvent.jump s).showTranslation = false ∧
       (step TEvent.jump s).timers =
         [{ handle := s.nextHandle, delay := revealDelayOf s.speedMode }])) ∧
    (∀ n : Int, jsParseInt s.jumpToQuestion = some n → 1 ≤ n → n ≤ (s.numQuestions : Int) →
      (n - 1).toNat = s.currentQuestion → s.selectedAnswer = none → s.showCorrectAnswer = false →
      (step TEvent.jump s).timers = []) ∧
    (step (TEvent.loadQuestions 0) s).timers = [] := by
  obtain ⟨hpos, hT⟩ := reachable_timerInv hs
  have hTnil : s.timers = [] ∨
      ∃ h0 d, s.timers = [{ handle := h0, delay := d }] ∧ s.answerTimer = some h0 := by
    rcases hT with h | ⟨h0, ht, _, ha, _, _⟩
    · exact Or.inl h
    · exact Or.inr ⟨h0, revealDelay s, ht, ha⟩
  refine ⟨?_, ?_, ?_, ?_, ?_, ?_, ?_, ?_⟩
  · rcases hT with h | ⟨h0, ht, _⟩
    · rw [h]; simp
    · rw [ht]; simp
  · intro hne
    rcases hT with h | ⟨h0, ht, hc, ha, hct, hn⟩
    · exact absurd h hne
    · obtain ⟨hca, hcb, hcc⟩ := (effectCond_true_iff s).mp hc
      exact ⟨hcb, hca, hcc, h0, ht⟩
  · intro a hsel hshow
    have hg : ¬ (s.selectedAnswer.isSome || s.showCorrectAnswer) = true := by
      simp [hsel, hshow]
    have hh : handle (TEvent.selectAnswer a) s =
        clearAnswerTimer { s with selectedAnswer := some a, showCorrectAnswer := true } := by
      simp only [handle, if_neg hg]
    have hnil : (clearAnswerTimer
        { s with selectedAnswer := some a, showCorrectAnswer := true }).timers = [] := by
      apply clearAnswerTimer_timers_nil
      rcases hTnil with h | ⟨h0, d, ht, ha⟩
      · exact Or.inl h
      · exact Or.inr ⟨h0, d, ht, ha⟩
    rw [step_eq, hh]
    split
    · exact hnil
    · have hcond : effectCond (clearAnswerTimer
          { s with selectedAnswer := some a, showCorrectAnswer := true }) = false := by
        simp [effectCond, (clearAnswerTimer_proj _).2.2.2]
      rw [runEffect_idle _ hcond]
      exact timers_nil_cleared _ hnil
  · intro hlt
    have hh : handle TEvent.next s =
        resetAnswerState { s with currentQuestion := s.currentQuestion + 1, showTranslation := false } := by
      simp only [handle, if_pos hlt]
    set Y := { s with currentQuestion := s.currentQuestion + 1, showTranslation := false }
    have hprj := resetAnswerState_proj Y
    have hdeps : effectDeps (resetAnswerState Y) ≠ effectDeps s := by
      intro heq
      have h1 := congrArg Prod.fst heq
      simp only [effectDeps] at h1
      rw [hprj.2.1] at h1
      simp at h1
    have hc : effectCond (resetAnswerState Y) = true := by
      simp [effectCond, hprj.1, hprj.2.1, hprj.2.2.1, hprj.2.2.2.1]
      omega
    have hnil : (resetAnswerState Y).timers = [] := by
      apply clearAnswerTimer_timers_nil
      rcases hTnil with h | ⟨h0, d, ht, ha⟩
      · exact Or.inl h
      · exact Or.inr ⟨h0, d, ht, ha⟩
    rw [step_eq, hh, step_of_handler_arm s _ hdeps hc hnil]
    refine ⟨hprj.2.2.1, hprj.2.2.2.1, ?_, ?_, ?_⟩
    · show (resetAnswerState Y).showTranslation = false
      rw [hprj.2.2.2.2.1]
    · show [({ handle := (resetAnswerState Y).nextHandle, delay := revealDelay (resetAnswerState Y) } : Timer)] = _
      rw [show revealDelay (resetAnswerState Y) = revealDelayOf (resetAnswerState Y).speedMode from rfl]
      rw [hprj.2.2.2.2.2.2.2.1, hprj.2.2.2.2.2.2.2.2]
    · intro t htmem heq
      rcases hT with h | ⟨h0, ht, _, _, _, hn⟩
      · rw [h] at htmem
        simp at htmem
      · rw [ht] at htmem
        simp at htmem
        rw [htmem] at heq
        simp at heq
        omega
  · intro hlt
    have hh : handle TEvent.prev s =
        resetAnswerState { s with currentQuestion := s.currentQuestion - 1, showTranslation := false } := by
      simp only [handle, if_pos hlt]
    set Y := { s with currentQuestion := s.currentQuestion - 1, showTranslation := false }
    have hprj := resetAnswerState_proj Y
    have hdeps : effectDeps (resetAnswerState Y) ≠ effectDeps s := by
      intro heq
      have h1 := congrArg Prod.fst heq
      simp only [effectDeps] at h1
      rw [hprj.2.1] at h1
      simp at h1
      omega
    have hc : effectCond (resetAnswerState Y) = true := by
      simp [effectCond, hprj.1, hprj.2.1, hprj.2.2.1, hprj.2.2.2.1]
      rcases hpos with h | ⟨h1, h2⟩
      · omega
      · omega
    have hnil : (resetAnswerState Y).timers = [] := by
      apply clearAnswerTimer_timers_nil
      rcases hTnil with h | ⟨h0, d, ht, ha⟩
      · exact Or.inl h
      · exact Or.inr ⟨h0, d, ht, ha⟩
    rw [step_eq, hh, step_of_handler_arm s _ hdeps hc hnil]
    refine ⟨hprj.2.2.1, hprj.2.2.2.1, ?_, ?_, ?_⟩
    · show (resetAnswerState Y).showTranslation = false
      rw [hprj.2.2.2.2.1]
    · show [({ handle := (resetAnswerState Y).nextHandle, delay := revealDelay (resetAnswerState Y) } : Timer)] = _
      rw [show revealDelay (resetAnswerState Y) = revealDelayOf (resetAnswerState Y).speedMode from rfl]
      rw [hprj.2.2.2.2.2.2.2.1, hprj.2.2.2.2.2.2.2.2]
    · intro t htmem heq
      rcases hT with h | ⟨h0, ht, _, _, _, hn⟩
      · rw [h] at htmem
        simp at htmem
      · rw [ht] at htmem
        simp at htmem
        rw [htmem] at heq
        simp at heq
        omega
  · intro n hp h1 h2 hne
    have hh : handle TEvent.jump s =
        resetAnswerState { s with
          currentQuestion := (n - 1).toNat
          showTranslation := false
          jumpToQuestion := "" } := by
      simp only [handle, hp]
      rw [if_pos ⟨h1, h2⟩]
    set Y := { s with
      currentQuestion := (n - 1).toNat
      showTranslation := false
      jumpToQuestion := "" }
    have hprj := resetAnswerState_proj Y
    have hdeps : effectDeps (resetAnswerState Y) ≠ effectDeps s := by
      intro heq
      have hfst := congrArg Prod.fst heq
      simp only [effectDeps] at hfst
      rw [hprj.2.1] at hfst
      exact hne hfst
    have hc : effectCond (resetAnswerState Y) = true := by
      simp [effectCond, hprj.1, hprj.2.1, hprj.2.2.1, hprj.2.2.2.1]
      omega
    have hnil : (resetAnswerState Y).timers = [] := by
      apply clearAnswerTimer_timers_nil
      rcases hTnil with h | ⟨h0, d, ht, ha⟩
      · exact Or.inl h
      · exact Or.inr ⟨h0, d, ht, ha⟩
    rw [step_eq, hh, step_of_handler_arm s _ hdeps hc hnil]
    refine ⟨hprj.2.2.1, hprj.2.2.2.1, ?_, ?_⟩
    · show (resetAnswerState Y).showTranslation = false
      rw [hprj.2.2.2.2.1]
    · show [({ handle := (resetAnswerState Y).nextHandle, delay := revealDelay (resetAnswerState Y) } : Timer)] = _
      rw [show revealDelay (resetAnswerState Y) = revealDelayOf (resetAnswerState Y).speedMode from rfl]
      rw [hprj.2.2.2.2.2.2.2.1, hprj.2.2.2.2.2.2.2.2]
  · intro n hp h1 h2 hsame hsel hshow
    have hh : handle TEvent.jump s =
        resetAnswerState { s with
          currentQuestion := (n - 1).toNat
          showTranslation := false
          jumpToQuestion := "" } := by
      simp only [handle, hp]
      rw [if_pos ⟨h1, h2⟩]
    set Y := { s with
      currentQuestion := (n - 1).toNat
      showTranslation := false
      jumpToQuestion := "" }
    have hprj := resetAnswerState_proj Y
    have hnil : (resetAnswerState Y).timers = [] := by
      apply clearAnswerTimer_timers_nil
      rcases hTnil with h | ⟨h0, d, ht, ha⟩
      · exact Or.inl h
      · exact Or.inr ⟨h0, d, ht, ha⟩
    rw [step_eq, hh]
    split
    · exact hnil
    · rcases hcond : effectCond (resetAnswerState Y) with _ | _
      · rw [runEffect_idle _ hcond]
        exact timers_nil_cleared _ hnil
      · rw [runEffect_arm _ hcond (timers_nil_cleared _ hnil)]
        exfalso
        rename_i hdepsne
        apply hdepsne
        simp only [effectDeps]
        rw [hprj.2.1, hprj.2.2.1, hprj.2.2.2.1, hprj.2.2.2.2.2.2.1,
          show revealDelay (resetAnswerState Y) = revealDelayOf (resetAnswerState Y).speedMode from rfl,
          hprj.2.2.2.2.2.2.2.1]
        rw [hsel, hshow]
        show ((n - 1).toNat, false, none, s.questionsVersion, revealDelayOf s.speedMode) = _
        rw [hsame]
        rfl
  · have hh : handle (TEvent.loadQuestions 0) s =
        clearAnswerTimer { s with
          numQuestions := 0
          questionsVersion := s.questionsVersion + 1
          currentQuestion := 0
          showTranslation := false
          selectedAnswer := none
          showCorrectAnswer := false } := by
      simp only [handle]
    have hnil : (clearAnswerTimer { s with
        numQuestions := 0
        questionsVersion := s.questionsVersion + 1
        currentQuestion := 0
        showTranslation := false
        selectedAnswer := none
        showCorrectAnswer := false }).timers = [] := by
      apply clearAnswerTimer_timers_nil
      rcases hTnil with h | ⟨h0, d, ht, ha⟩
      · exact Or.inl h
      · exact Or.inr ⟨h0, d, ht, ha⟩
    rw [step_eq, hh]
    split
    · exact hnil
    · have hcond : effectCond (clearAnswerTimer { s with
          numQuestions := 0
          questionsVersion := s.questionsVersion + 1
          currentQuestion := 0
          showTranslation := false
          selectedAnswer := none
          showCorrectAnswer := false }) = false := by
        simp [effectCond, (clearAnswerTimer_proj _).1, (clearAnswerTimer_proj _).2.1]
      rw [runEffect_idle _ hcond]
      exact timers_nil_cleared _ hnil

/-- Witness for the amended C6 theorem: after loading 2 questions, one
timer is armed, and moving to the next question arms the fresh handle 1
under the slow delay. -/
theorem training_timer_discipline_witness :
    (step (TEvent.loadQuestions 2) initTraining).timers.length ≤ 1 ∧
    (step TEvent.next (step (TEvent.loadQuestions 2) initTraining)).timers =
      [{ handle := 1, delay := 30000 }] := by
  have h := training_timer_discipline (step (TEvent.loadQuestions 2) initTraining)
    (ReachableT.step (TEvent.loadQuestions 2) ReachableT.init)
  refine ⟨h.1, ?_⟩
  rw [(h.2.2.2.1 (by decide)).2.2.2.1]
  decide

/-- C8, counterexample: with the slow preset, loading questions arms
timer handle 0 with delay 30000; switching the preset to fast while that
timer is outstanding does NOT leave it running at its original delay —
the effect (whose dependencies include `revealDelay`) re-runs, cancels
handle 0, and arms a fresh timer with the new 10000 ms delay. -/
theorem speed_toggle_retroactive_cex :
    (step (TEvent.loadQuestions 2) initTraining).timers = [{ handle := 0, delay := 30000 }] ∧
    (step (TEvent.toggleSpeed SpeedMode.schnell)
      (step (TEvent.loadQuestions 2) initTraining)).timers = [{ handle := 1, delay := 10000 }] ∧
    ({ handle := 0, delay := 30000 } : Timer) ∉
      (step (TEvent.toggleSpeed SpeedMode.schnell)
        (step (TEvent.loadQuestions 2) initTraining)).timers := by
  refine ⟨by decide, by decide, by decide⟩

/-- C8 (amended): the presets are schnell = 10000 ms and langsam =
30000 ms; switching to a preset with a different delay while a timer is
outstanding cancels that timer and immediately arms a fresh one under
the NEW delay (the effect lists `revealDelay` among its dependencies);
in particular an outstanding timer's delay always equals the delay of
the currently selected preset, so a preset switch is never merely
deferred to the next armed timer. -/
theorem speed_toggle_rearms (s : TrainingState) (hs : ReachableT s) (m : SpeedMode)
    (hm : revealDelayOf m ≠ revealDelayOf s.speedMode) :
    revealDelayOf SpeedMode.schnell = 10000 ∧
    revealDelayOf SpeedMode.langsam = 30000 ∧
    (∀ t ∈ s.timers, t.delay = revealDelayOf s.speedMode) ∧
    (∀ h, s.timers = [{ handle := h, delay := revealDelayOf s.speedMode }] →
      (step (TEvent.toggleSpeed m) s).timers =
        [{ handle := s.nextHandle, delay := revealDelayOf m }] ∧
      ({ handle := h, delay := revealDelayOf s.speedMode } : Timer) ∉
        (step (TEvent.toggleSpeed m) s).timers) := by
  obtain ⟨hpos, hT⟩ := reachable_timerInv hs
  refine ⟨rfl, rfl, ?_, ?_⟩
  · intro t htm
    rcases hT with h | ⟨h0, ht, _⟩
    · rw [h] at htm
      simp at htm
    · rw [ht] at htm
      simp at htm
      rw [htm]
      rfl
  · intro h hts
    have hh : handle (TEvent.toggleSpeed m) s = { s with speedMode := m } := by
      simp only [handle]
    have hdeps : effectDeps { s with speedMode := m } ≠ effectDeps s := by
      intro heq
      have h5 := congrArg (fun p => p.2.2.2.2) heq
      simp only [effectDeps, revealDelay] at h5
      exact hm h5
    rcases hT with hnil | ⟨h0, ht, hc, ha, hct, hn⟩
    · rw [hnil] at hts
      exact absurd hts.symm (by simp)
    · have hh0 : h0 = h := by
        rw [ht] at hts
        injection hts with h1 _
        injection h1
      subst hh0
      have hc₁ : effectCond { s with speedMode := m } = true := by
        rw [effectCond_true_iff] at hc ⊢
        exact hc
      have hclear : clearedTimers { s with speedMode := m } = [] := by
        show clearedTimers { s with speedMode := m } = []
        unfold clearedTimers
        show (match s.cleanupTarget with
          | some h => clearTimeout s.timers h
          | none => s.timers) = []
        rw [hct, ht]
        exact clearTimeout_single_self h0 _
      rw [step_eq, hh, if_neg hdeps, runEffect_arm _ hc₁ hclear]
      constructor
      · rfl
      · intro hmem
        simp at hmem
        omega

/-- Witness for the amended C8 theorem at the concrete post-load state. -/
theorem speed_toggle_rearms_witness :
    (step (TEvent.toggleSpeed SpeedMode.schnell)
      (step (TEvent.loadQuestions 2) initTraining)).timers =
      [{ handle := 1, delay := 10000 }] := by
  have h := speed_toggle_rearms (step (TEvent.loadQuestions 2) initTraining)
    (ReachableT.step (TEvent.loadQuestions 2) ReachableT.init)
    SpeedMode.schnell (by decide)
  have h2 := (h.2.2.2 0 (by decide)).1
  rw [h2]
  decide

/-- C7: in a session with a non-empty question list, `prevQuestion` at
position 0, `nextQuestion` at the last position, and
`handleJumpToQuestion` for a NaN or out-of-range input are all complete
no-ops: the whole component state (position, transient flags, timers,
jump field) is unchanged and nothing is thrown (the handlers are total). -/
theorem navigation_boundary_noop (s : TrainingState) (hne : s.numQuestions ≠ 0) :
    (s.currentQuestion = 0 → step TEvent.prev s = s) ∧
    (s.currentQuestion = s.numQuestions - 1 → step TEvent.next s = s) ∧
    (jsParseInt s.jumpToQuestion = none → step TEvent.jump s = s) ∧
    (∀ n : Int, jsParseInt s.jumpToQuestion = some n →
      (n < 1 ∨ (s.numQuestions : Int) < n) → step TEvent.jump s = s) := by
  refine ⟨fun h0 => ?_, fun hlast => ?_, fun hnan => ?_, fun n hp hout => ?_⟩
  · have hh : handle TEvent.prev s = s := by
      simp only [handle]
      rw [if_neg (by omega)]
    rw [step_eq, hh, if_pos rfl]
  · have hh : handle TEvent.next s = s := by
      simp only [handle]
      rw [if_neg (by omega)]
    rw [step_eq, hh, if_pos rfl]
  · have hh : handle TEvent.jump s = s := by
      simp only [handle, hnan]
    rw [step_eq, hh, if_pos rfl]
  · have hh : handle TEvent.jump s = s := by
      simp only [handle, hp]
      rw [if_neg (by omega)]
    rw [step_eq, hh, if_pos rfl]

/-- Witness for C7: at the concrete two-question state, `prev` at
position 0, `next` at the last position and out-of-range jumps (0 and
length + 1) are no-ops. -/
theorem navigation_boundary_noop_witness :
    step TEvent.prev (step (TEvent.loadQuestions 2) initTraining) =
      step (TEvent.loadQuestions 2) initTraining ∧
    step TEvent.jump (step (TEvent.typeJump "0") (step (TEvent.loadQuestions 2) initTraining)) =
      step (TEvent.typeJump "0") (step (TEvent.loadQuestions 2) initTraining) ∧
    step TEvent.jump (step (TEvent.typeJump "3") (step (TEvent.loadQuestions 2) initTraining)) =
      step (TEvent.typeJump "3") (step (TEvent.loadQuestions 2) initTraining) := by
  refine ⟨?_, ?_, ?_⟩
  · exact (navigation_boundary_noop (step (TEvent.loadQuestions 2) initTraining)
      (by decide)).1 (by decide)
  · exact (navigation_boundary_noop
      (step (TEvent.typeJump "0") (step (TEvent.loadQuestions 2) initTraining))
      (by decide)).2.2.2 0 (by decide) (by decide)
  · exact (navigation_boundary_noop
      (step (TEvent.typeJump "3") (step (TEvent.loadQuestions 2) initTraining))
      (by decide)).2.2.2 3 (by decide) (by decide)

/-- C10: the jump input is a string interpreted with `parseInt`: any
input whose leading integer prefix n satisfies 1 <= n <= length (such as
"2.7" or "3abc", truncated to their leading integer) moves the position
to question n, resets the transient state, and clears the input field;
inputs parsing to NaN, or whose parsed value is out of range, leave the
whole state (including the input field) unchanged. -/
theorem jump_input_semantics (s : TrainingState) :
    (∀ n : Int, leadingIntVal s.jumpToQuestion = some n → 1 ≤ n → n ≤ (s.numQuestions : Int) →
      ((step TEvent.jump s).currentQuestion = (n - 1).toNat ∧
       (step TEvent.jump s).jumpToQuestion = "" ∧
       (step TEvent.jump s).selectedAnswer = none ∧
       (step TEvent.jump s).showCorrectAnswer = false ∧
       (step TEvent.jump s).showTranslation = false ∧
       (step TEvent.jump s).numQuestions = s.numQuestions)) ∧
    (jsParseInt s.jumpToQuestion = none → step TEvent.jump s = s) ∧
    (∀ n : Int, jsParseInt s.jumpToQuestion = some n →
      (n < 1 ∨ (s.numQuestions : Int) < n) → step TEvent.jump s = s) := by
  refine ⟨fun n hlead h1 h2 => ?_, fun hnan => ?_, fun n hp hout => ?_⟩
  · have hp := leadingIntVal_pos_jsParseInt s.jumpToQuestion n hlead h1
    have hh : handle TEvent.jump s =
        resetAnswerState { s with
          currentQuestion := (n - 1).toNat
          showTranslation := false
          jumpToQuestion := "" } := by
      simp only [handle, hp]
      rw [if_pos ⟨h1, h2⟩]
    set Y := { s with
      currentQuestion := (n - 1).toNat
      showTranslation := false
      jumpToQuestion := "" }
    have hprj := resetAnswerState_proj Y
    have hrE := runEffect_proj (resetAnswerState Y)
    rw [step_eq, hh]
    split
    · exact ⟨hprj.2.1, hprj.2.2.2.2.2.1, hprj.2.2.1, hprj.2.2.2.1, hprj.2.2.2.2.1, hprj.1⟩
    · refine ⟨?_, ?_, ?_, ?_, ?_, ?_⟩
      · rw [hrE.2.1, hprj.2.1]
      · rw [hrE.2.2.2.2.2, hprj.2.2.2.2.2.1]
      · rw [hrE.2.2.1, hprj.2.2.1]
      · rw [hrE.2.2.2.1, hprj.2.2.2.1]
      · rw [hrE.2.2.2.2.1, hprj.2.2.2.2.1]
      · rw [hrE.1, hprj.1]
  · have hh : handle TEvent.jump s = s := by
      simp only [handle, hnan]
    rw [step_eq, hh, if_pos rfl]
  · have hh : handle TEvent.jump s = s := by
      simp only [handle, hp]
      rw [if_neg (by omega)]
    rw [step_eq, hh, if_pos rfl]

/-- Witness for C10: typing "2.7" into the jump field of a two-question
session and jumping moves to question 2 (index 1) and clears the field. -/
theorem jump_input_semantics_witness :
    (step TEvent.jump (step (TEvent.typeJump "2.7")
      (step (TEvent.loadQuestions 2) initTraining))).currentQuestion = 1 ∧
    (step TEvent.jump (step (TEvent.typeJump "2.7")
      (step (TEvent.loadQuestions 2) initTraining))).jumpToQuestion = "" := by
  have h := (jump_input_semantics
    (step (TEvent.typeJump "2.7") (step (TEvent.loadQuestions 2) initTraining))).1
    2 (by decide) (by decide) (by decide)
  exact ⟨h.1, h.2.1⟩

/-- C9: for a question id and language not in the cache, a successful
fetch with a row performs exactly one external fetch and stores the row;
a second call for the same pair is served from the cache — the whole
resulting state differs from the first call's state only in
(re)setting `translation`, so no second fetch happens whatever the
external repository would answer.  A failed fetch is never cached, sets
no translation instead of propagating an exception, and raises exactly
one non-fatal notification. -/
theorem translation_cache_behavior (s : TransState) (qid language : String)
    (row : Translation) (rest : List Translation) (o2 : FetchOutcome)
    (hqid : qid ≠ "")
    (hmiss : s.cache.lookup (cacheKey qid (jsTrimString language)) = none) :
    ((fetchTranslation s qid language (FetchOutcome.success (row :: rest))).fetchCount
        = s.fetchCount + 1) ∧
    ((fetchTranslation s qid language (FetchOutcome.success (row :: rest))).translation
        = some row) ∧
    (fetchTranslation (fetchTranslation s qid language (FetchOutcome.success (row :: rest)))
        qid language o2 =
      { fetchTranslation s qid language (FetchOutcome.success (row :: rest)) with
        translation := some row }) ∧
    ((fetchTranslation s qid language FetchOutcome.failure).cache = s.cache) ∧
    ((fetchTranslation s qid language FetchOutcome.failure).translation = none) ∧
    ((fetchTranslation s qid language FetchOutcome.failure).toastCount = s.toastCount + 1) ∧
    ((fetchTranslation s qid language FetchOutcome.failure).fetchCount = s.fetchCount + 1) := by
  have h1 : fetchTranslation s qid language (FetchOutcome.success (row :: rest)) =
      { s with
        fetchCount := s.fetchCount + 1
        cache := (cacheKey qid (jsTrimString language), row) :: s.cache
        translation := some row } := by
    simp only [fetchTranslation, if_neg hqid, hmiss]
  have h2 : fetchTranslation s qid language FetchOutcome.failure =
      { s with
        fetchCount := s.fetchCount + 1
        toastCount := s.toastCount + 1
        translation := none } := by
    simp only [fetchTranslation, if_neg hqid, hmiss]
  refine ⟨by rw [h1], by rw [h1], ?_, by rw [h2], by rw [h2], by rw [h2], by rw [h2]⟩
  rw [h1]
  simp only [fetchTranslation, if_neg hqid]
  rw [show (((cacheKey qid (jsTrimString language), row) :: s.cache).lookup
      (cacheKey qid (jsTrimString language))) = some row by simp [List.lookup]]

/-- Witness for C9 at a concrete empty cache and a concrete row. -/
theorem translation_cache_behavior_witness :
    (fetchTranslation
      (fetchTranslation
        { cache := [], translation := none, fetchCount := 0, toastCount := 0 }
        "q1" "englisch"
        (FetchOutcome.success [{ question_text := "What is the capital of Germany?"
                                 option_a := some "Berlin"
                                 option_b := none
                                 option_c := none
                                 option_d := none }]))
      "q1" "englisch" FetchOutcome.failure).fetchCount = 1 := by
  have h := translation_cache_behavior
    { cache := [], translation := none, fetchCount := 0, toastCount := 0 }
    "q1" "englisch"
    { question_text := "What is the capital of Germany?"
      option_a := some "Berlin"
      option_b := none
      option_c := none
      option_d := none }
    [] FetchOutcome.failure (by decide) (by decide)
  rw [h.2.2.1]
  decide

end LebenTrainer
